import Mathlib

/-!
# Verification of the bcachefs-tools btree transaction engine spec

Shallow embedding of the parts of the bcachefs-tools source that the
specification's claims are about:

* the transaction restart discipline (`lockrestart_do`,
  `nested_lockrestart_do`, `trans_was_restarted` from btree_iter.h);
* slot lookups (`bch2_btree_path_peek_slot_exact`, `__bch2_bkey_get_iter`,
  `__bkey_val_copy`);
* path reference counting (`__btree_path_get`, `__btree_path_put`);
* the path-count limit (`btree_trans_too_many_iters`);
* superblock journal bucket encoding (`bch2_journal_buckets_to_sb`,
  `bch2_sb_journal_v2_validate` from journal_sb.c);
* the key-scan loops of `rust_sanitize_journal` / `rust_sanitize_btree`
  (rust_shims.c);
* the snapshot table (`snapshot_t` from snapshots/types.h) and its
  ancestor test.

Machine integers are modelled as `Nat`/`Int`; debug assertions
(`EBUG_ON`/`BUG_ON`) and `panic` are modelled by an `Option`/`none`
result.
-/

namespace Bcachefs

/-! ## Error codes

Modelled from the spec: private error codes with a class hierarchy
(errcode.h is not part of the sources at hand).  The spec lists the class
`transaction_restart` with sub-kinds (e.g. relock, too_many_iters) and the
separate code `transaction_restart_nested` that nested transactions
propagate; `bkey_type_mismatch` is a normal not-found signal.  Only the
parent relation matters for the claims; concrete numbers are arbitrary
distinct values above 2048 as in the C error-code range. -/

def BCH_ERR_transaction_restart : Int := 2048

def BCH_ERR_transaction_restart_relock : Int := 2049

def BCH_ERR_transaction_restart_too_many_iters : Int := 2050

def BCH_ERR_transaction_restart_nested : Int := 2051

def BCH_ERR_ENOENT_bkey_type_mismatch : Int := 2100

def BCH_ERR_ENOSPC_sb_journal : Int := 2200

/-- Modelled from the spec: the parent (error class) of each private error
code; restart sub-kinds belong to the `transaction_restart` class.  A code
with no parent maps to 0. -/
def bch2_err_parent (e : Int) : Int :=
  if e = BCH_ERR_transaction_restart_relock ∨
     e = BCH_ERR_transaction_restart_too_many_iters ∨
     e = BCH_ERR_transaction_restart_nested then
    BCH_ERR_transaction_restart
  else 0

/-- Modelled from the spec: `bch2_err_matches(err, class)` — does the
(possibly negated) error code `err` belong to the class `c`?  Walks the
parent chain (depth 2 suffices for the codes modelled here). -/
def bch2_err_matches (err c : Int) : Bool :=
  let e := |err|
  e ≠ 0 ∧ (e = c ∨ bch2_err_parent e = c)

/-! ## Transaction state and the restart loops (btree_iter.h)

The transaction object: for the restart-loop claims only the restart
counter, the arena fill level (`mem_top`), the pending-restart code
(`restarted`) and a ghost counter of `bch2_trans_begin` calls are needed.
-/

structure btree_trans where
  restart_count : Nat
  mem_top : Nat
  /-- nonzero while a restart has been raised and not yet consumed -/
  restarted : Int
  /-- ghost instrumentation: number of `bch2_trans_begin` calls so far -/
  begins : Nat
  deriving Repr, DecidableEq

/-- Modelled from the spec: `bch2_trans_begin` "resets the memory arena",
"increments restart count on retries" and yields the restart count; it
clears the pending-restart state. -/
def bch2_trans_begin (trans : btree_trans) : Nat × btree_trans :=
  (trans.restart_count + 1,
   { restart_count := trans.restart_count + 1
     mem_top := 0
     restarted := 0
     begins := trans.begins + 1 })

/-- `trans_was_restarted` (btree_iter.h): nonzero iff the transaction's
restart count differs from the recorded one. -/
def trans_was_restarted (trans : btree_trans) (restart_count : Nat) : Int :=
  if restart_count ≠ trans.restart_count then
    -BCH_ERR_transaction_restart_nested
  else 0

/-- One execution of a transaction body, abstracted by its observable
effect on the transaction: the returned error code `res`, the number of
restart-count increments the body performed internally (inner retry loops
calling `bch2_trans_begin`), and the arena bytes it allocated via
`bch2_trans_kmalloc`. -/
structure BodyRun where
  res : Int
  dCount : Nat
  alloc : Nat
  deriving Repr, DecidableEq

/-- Run one body execution on the transaction state.  A body returning a
`transaction_restart` error has raised it via `btree_trans_restart`, which
records the code in `trans->restarted`. -/
def runBody (trans : btree_trans) (b : BodyRun) : Int × btree_trans :=
  (b.res,
   { trans with
     restart_count := trans.restart_count + b.dCount
     mem_top := trans.mem_top + b.alloc
     restarted :=
       if bch2_err_matches b.res BCH_ERR_transaction_restart then b.res
       else trans.restarted })

/-- `bch2_trans_verify_not_restarted` (btree_iter.h): a `BUG` (modelled as
`none`) when the restart count moved since `restart_count` was recorded. -/
def bch2_trans_verify_not_restarted (trans : btree_trans)
    (restart_count : Nat) : Option Unit :=
  if trans_was_restarted trans restart_count ≠ 0 then none else some ()

/-- `lockrestart_do` (btree_iter.h): run `bch2_trans_begin`, run the body,
and loop back while the result matches `transaction_restart`; on a
successful (zero) result, `bch2_trans_verify_not_restarted` checks the
restart count against the one the last `bch2_trans_begin` returned.

The successive executions of the body are supplied as the list `bodies`;
`none` models both running out of supplied executions and a `BUG`.  On
success the returned trace holds the transaction state at entry of each
body execution (directly after `bch2_trans_begin`). -/
def lockrestart_do (trans : btree_trans) (bodies : List BodyRun) :
    Option (Int × btree_trans × List btree_trans) :=
  match bodies with
  | [] => none
  | b :: rest =>
    let rc := (bch2_trans_begin trans).1
    let trans1 := (bch2_trans_begin trans).2
    let ret2 := (runBody trans1 b).1
    let trans2 := (runBody trans1 b).2
    if bch2_err_matches ret2 BCH_ERR_transaction_restart then
      match lockrestart_do trans2 rest with
      | some (res, tf, trace) => some (res, tf, trans1 :: trace)
      | none => none
    else
      if ret2 = 0 then
        match bch2_trans_verify_not_restarted trans2 rc with
        | some _ => some (ret2, trans2, [trans1])
        | none => none
      else some (ret2, trans2, [trans1])

/-- The retry loop of `nested_lockrestart_do`: run the body; while the
result matches `transaction_restart`, call `bch2_trans_begin` and rerun.
Returns the exit result, the exit state, and the restart count recorded by
the last `bch2_trans_begin` (or the one passed in when none happened). -/
def nested_lockrestart_loop (trans : btree_trans) (restart_count : Nat)
    (bodies : List BodyRun) : Option (Int × btree_trans × Nat) :=
  match bodies with
  | [] => none
  | b :: rest =>
    let ret2 := (runBody trans b).1
    let trans2 := (runBody trans b).2
    if bch2_err_matches ret2 BCH_ERR_transaction_restart then
      nested_lockrestart_loop (bch2_trans_begin trans2).2 (bch2_trans_begin trans2).1 rest
    else some (ret2, trans2, restart_count)

/-- `nested_lockrestart_do` (btree_iter.h): records the restart count at
entry, retries the body after `bch2_trans_begin` on `transaction_restart`
results, and on a zero result returns
`trans_was_restarted(trans, orig_restart_count)` instead. -/
def nested_lockrestart_do (trans : btree_trans) (bodies : List BodyRun) :
    Option (Int × btree_trans) :=
  let orig_restart_count := trans.restart_count
  match nested_lockrestart_loop trans orig_restart_count bodies with
  | none => none
  | some (ret2, tf, rc) =>
    if ret2 = 0 then
      match bch2_trans_verify_not_restarted tf rc with
      | some _ => some (trans_was_restarted tf orig_restart_count, tf)
      | none => none
    else some (ret2, tf)

/-! ## Theorems: restart loops -/

theorem lockrestart_do_no_restart_result (t : btree_trans) (bodies : List BodyRun)
    (r : Int) (tf : btree_trans) (trace : List btree_trans)
    (h : lockrestart_do t bodies = some (r, tf, trace)) :
    bch2_err_matches r BCH_ERR_transaction_restart = false := by
  induction bodies generalizing t r tf trace with
  | nil => simp [lockrestart_do] at h
  | cons b rest ih =>
    rw [lockrestart_do] at h
    split at h
    · -- restart-matching body result: loop again
      split at h
      · next res tf' trace' hrec =>
          obtain ⟨h1, h2, h3⟩ := by simpa using h
          exact h1 ▸ ih _ _ _ _ hrec
      · exact absurd h (by simp)
    · next hm =>
      split at h
      · next hz =>
        split at h
        · obtain ⟨h1, h2, h3⟩ := by simpa using h
          rw [← h1, hz]; decide
        · exact absurd h (by simp)
      · obtain ⟨h1, h2, h3⟩ := by simpa using h
        rw [← h1]
        simpa using hm

theorem lockrestart_do_run (t : btree_trans) (pre : List BodyRun) (b : BodyRun)
    (rest : List BodyRun)
    (hpre : ∀ a ∈ pre, bch2_err_matches a.res BCH_ERR_transaction_restart = true)
    (hb : bch2_err_matches b.res BCH_ERR_transaction_restart = false)
    (hok : b.res = 0 → b.dCount = 0) :
    ∃ tf trace,
      lockrestart_do t (pre ++ b :: rest) = some (b.res, tf, trace) ∧
      trace.length = pre.length + 1 ∧
      tf.begins = t.begins + (pre.length + 1) ∧
      ∀ s ∈ trace, s.mem_top = 0 := by
  induction pre generalizing t with
  | nil =>
    refine ⟨(runBody (bch2_trans_begin t).2 b).2, [(bch2_trans_begin t).2], ?_, ?_, ?_, ?_⟩
    · rw [List.nil_append, lockrestart_do]
      have hres : (runBody (bch2_trans_begin t).2 b).1 = b.res := rfl
      rw [hres, hb]
      simp only [Bool.false_eq_true, if_false]
      by_cases hz : b.res = 0
      · have hd := hok hz
        have hv : bch2_trans_verify_not_restarted (runBody (bch2_trans_begin t).2 b).2
            (bch2_trans_begin t).1 = some () := by
          simp [bch2_trans_verify_not_restarted, trans_was_restarted, runBody,
                bch2_trans_begin, hd]
        simp [hz, hv]
      · simp [hz]
    · rfl
    · simp [runBody, bch2_trans_begin]
    · intro s hs
      simp only [List.mem_singleton] at hs
      subst hs; rfl
  | cons a pre' ih =>
    have ha : bch2_err_matches a.res BCH_ERR_transaction_restart = true :=
      hpre a (List.mem_cons_self a pre')
    have hpre' : ∀ x ∈ pre', bch2_err_matches x.res BCH_ERR_transaction_restart = true :=
      fun x hx => hpre x (List.mem_cons_of_mem a hx)
    obtain ⟨tf, trace, heq, hlen, hbeg, hmem⟩ :=
      ih (runBody (bch2_trans_begin t).2 a).2 hpre'
    refine ⟨tf, (bch2_trans_begin t).2 :: trace, ?_, ?_, ?_, ?_⟩
    · rw [List.cons_append, lockrestart_do]
      have hres : (runBody (bch2_trans_begin t).2 a).1 = a.res := rfl
      rw [hres, ha]
      simp only [if_true, heq]
    · simp [hlen]
    · have hstep : (runBody (bch2_trans_begin t).2 a).2.begins = t.begins + 1 := by
        simp [runBody, bch2_trans_begin]
      rw [hbeg, hstep, List.length_cons]
      omega
    · intro s hs
      rcases List.mem_cons.mp hs with h | h
      · subst h; rfl
      · exact hmem s h

/-- C1: under `lockrestart_do`, each body attempt is preceded by exactly one
`bch2_trans_begin` (the `begins` ghost counter advances by one per attempt
and the arena is reset — `mem_top = 0` — at every body entry); a body
result matching `transaction_restart` makes the loop rerun the body, so a
run with `k` restarting attempts executes the body exactly `k + 1` times;
and `lockrestart_do` never returns a `transaction_restart` error. -/
theorem claim_C1_lockrestart_do (t : btree_trans) (pre : List BodyRun) (b : BodyRun)
    (rest : List BodyRun)
    (hpre : ∀ a ∈ pre, bch2_err_matches a.res BCH_ERR_transaction_restart = true)
    (hb : bch2_err_matches b.res BCH_ERR_transaction_restart = false)
    (hok : b.res = 0 → b.dCount = 0) :
    (∃ tf trace,
      lockrestart_do t (pre ++ b :: rest) = some (b.res, tf, trace) ∧
      trace.length = pre.length + 1 ∧
      tf.begins = t.begins + (pre.length + 1) ∧
      ∀ s ∈ trace, s.mem_top = 0) ∧
    (∀ bodies r tf trace, lockrestart_do t bodies = some (r, tf, trace) →
      bch2_err_matches r BCH_ERR_transaction_restart = false) :=
  ⟨lockrestart_do_run t pre b rest hpre hb hok,
   fun _ r tf trace h => lockrestart_do_no_restart_result t _ r tf trace h⟩

theorem claim_C1_lockrestart_do_witness :
    (∃ tf trace,
      lockrestart_do ⟨0, 0, 0, 0⟩
          ([⟨-BCH_ERR_transaction_restart_relock, 0, 5⟩] ++ ⟨0, 0, 3⟩ :: []) =
        some ((0 : Int), tf, trace) ∧
      trace.length = 1 + 1 ∧
      tf.begins = 0 + (1 + 1) ∧
      ∀ s ∈ trace, s.mem_top = 0) ∧
    (∀ bodies r tf trace, lockrestart_do ⟨0, 0, 0, 0⟩ bodies = some (r, tf, trace) →
      bch2_err_matches r BCH_ERR_transaction_restart = false) := by
  have h := claim_C1_lockrestart_do ⟨0, 0, 0, 0⟩
      [⟨-BCH_ERR_transaction_restart_relock, 0, 5⟩] ⟨0, 0, 3⟩ []
      (by intro a ha; simp only [List.mem_singleton] at ha; subst ha; decide)
      (by decide) (by intro _; rfl)
  simpa using h

theorem nested_lockrestart_loop_run (pre : List BodyRun) (t : btree_trans)
    (b : BodyRun) (rest : List BodyRun)
    (hpre : ∀ a ∈ pre, bch2_err_matches a.res BCH_ERR_transaction_restart = true)
    (hb : bch2_err_matches b.res BCH_ERR_transaction_restart = false) :
    ∃ tf rc,
      nested_lockrestart_loop t t.restart_count (pre ++ b :: rest) =
        some (b.res, tf, rc) ∧
      tf.begins = t.begins + pre.length ∧
      tf.restart_count =
        t.restart_count + pre.length + (pre.map BodyRun.dCount).sum + b.dCount ∧
      rc + b.dCount = tf.restart_count := by
  induction pre generalizing t with
  | nil =>
    refine ⟨(runBody t b).2, t.restart_count, ?_, ?_, ?_, ?_⟩
    · rw [List.nil_append, nested_lockrestart_loop]
      have hres : (runBody t b).1 = b.res := rfl
      rw [hres, hb]
      simp
    · rfl
    · simp [runBody]
    · simp [runBody]
  | cons a pre' ih =>
    have ha : bch2_err_matches a.res BCH_ERR_transaction_restart = true :=
      hpre a (List.mem_cons_self a pre')
    have hpre' : ∀ x ∈ pre', bch2_err_matches x.res BCH_ERR_transaction_restart = true :=
      fun x hx => hpre x (List.mem_cons_of_mem a hx)
    obtain ⟨tf, rc, heq, hbeg, hcount, hrc⟩ :=
      ih (bch2_trans_begin (runBody t a).2).2 hpre'
    refine ⟨tf, rc, ?_, ?_, ?_, hrc⟩
    · rw [List.cons_append, nested_lockrestart_loop]
      have hres : (runBody t a).1 = a.res := rfl
      rw [hres, ha]
      simp only [if_true]
      have hrcnt : (bch2_trans_begin (runBody t a).2).1 =
          (bch2_trans_begin (runBody t a).2).2.restart_count := rfl
      rw [hrcnt]
      exact heq
    · rw [hbeg]
      have : (bch2_trans_begin (runBody t a).2).2.begins = t.begins + 1 := by
        simp [bch2_trans_begin, runBody]
      rw [this, List.length_cons]
      omega
    · rw [hcount]
      have : (bch2_trans_begin (runBody t a).2).2.restart_count =
          t.restart_count + a.dCount + 1 := by
        simp [bch2_trans_begin, runBody]
      rw [this, List.length_cons, List.map_cons, List.sum_cons]
      omega

/-- C5: a `nested_lockrestart_do` body result matching `transaction_restart`
is retried after `bch2_trans_begin` (one `begins` increment per restarting
attempt) rather than returned; when the body finally succeeds (result 0)
the call returns 0 if the transaction's restart count is unchanged since
entry and `-transaction_restart_nested` if it changed; a nonzero
non-restart result is returned as is. -/
theorem claim_C5_nested_lockrestart_do (t : btree_trans) (pre : List BodyRun)
    (b : BodyRun) (rest : List BodyRun)
    (hpre : ∀ a ∈ pre, bch2_err_matches a.res BCH_ERR_transaction_restart = true)
    (hb : bch2_err_matches b.res BCH_ERR_transaction_restart = false)
    (hok : b.res = 0 → b.dCount = 0) :
    ∃ tf,
      nested_lockrestart_do t (pre ++ b :: rest) =
        some ((if b.res = 0 then
                 (if tf.restart_count = t.restart_count then 0
                  else -BCH_ERR_transaction_restart_nested)
               else b.res), tf) ∧
      tf.begins = t.begins + pre.length ∧
      tf.restart_count =
        t.restart_count + pre.length + (pre.map BodyRun.dCount).sum + b.dCount := by
  obtain ⟨tf, rc, heq, hbeg, hcount, hrc⟩ :=
    nested_lockrestart_loop_run pre t b rest hpre hb
  refine ⟨tf, ?_, hbeg, hcount⟩
  rw [nested_lockrestart_do]
  simp only [heq]
  by_cases hz : b.res = 0
  · have hd := hok hz
    have hverify : bch2_trans_verify_not_restarted tf rc = some () := by
      have : rc = tf.restart_count := by omega
      simp [bch2_trans_verify_not_restarted, trans_was_restarted, this]
    simp only [hz, if_true, hverify]
    congr 1
    rw [trans_was_restarted]
    by_cases hch : tf.restart_count = t.restart_count
    · simp [hch]
    · simp [hch, Ne.symm hch]
  · simp [hz]

theorem claim_C5_nested_lockrestart_do_witness :
    (∃ tf,
      nested_lockrestart_do ⟨7, 0, 0, 0⟩
          ([⟨-BCH_ERR_transaction_restart_relock, 0, 4⟩] ++ ⟨0, 0, 2⟩ :: []) =
        some ((if (0 : Int) = 0 then
                 (if tf.restart_count = 7 then 0
                  else -BCH_ERR_transaction_restart_nested)
               else 0), tf) ∧
      tf.begins = 0 + 1 ∧
      tf.restart_count =
        7 + 1 + (([⟨-BCH_ERR_transaction_restart_relock, 0, 4⟩] :
          List BodyRun).map BodyRun.dCount).sum + 0) := by
  have h := claim_C5_nested_lockrestart_do ⟨7, 0, 0, 0⟩
      [⟨-BCH_ERR_transaction_restart_relock, 0, 4⟩] ⟨0, 0, 2⟩ []
      (by intro a ha; simp only [List.mem_singleton] at ha; subst ha; decide)
      (by decide) (by intro _; rfl)
  simpa using h

/-! ## Keys and positions (data model §3)

`bpos` is the three-component position; `bkey` the key header (the fields
the claims need: type tag, position, size).  `bkey_s_c` is a (possibly
null) key pointer paired with a (possibly null) value pointer; the value
is abstracted as a `Nat` tag. -/

structure bpos where
  inode : Nat
  offset : Nat
  snapshot : Nat
  deriving Repr, DecidableEq

/-- `bpos_eq` (bkey.h): componentwise equality of positions. -/
def bpos_eq (l r : bpos) : Bool :=
  l.inode = r.inode ∧ l.offset = r.offset ∧ l.snapshot = r.snapshot

structure bkey where
  type : Nat
  p : bpos
  size : Nat
  deriving Repr, DecidableEq

/-- `KEY_TYPE_deleted`: the first key type of the on-disk enumeration
(docs/ondiskformat.rst), the tombstone type. -/
def KEY_TYPE_deleted : Nat := 0

structure bkey_s_c where
  k : Option bkey
  v : Option Nat
  deriving Repr, DecidableEq

/-- Modelled from the spec: `bkey_init` (bkey.h, not under src/) resets a
key header to a deleted key of size 0 ("a missing key at an exact position
is returned as a synthetic tombstone"). -/
def bkey_init : bkey :=
  { type := KEY_TYPE_deleted, p := ⟨0, 0, 0⟩, size := 0 }

/-- `bch2_btree_path_peek_slot_exact` (btree_iter.h): the underlying
`bch2_btree_path_peek_slot` result is `k`; if it holds a key at exactly
the path's position it is returned unchanged, otherwise a freshly
initialized key at the path's position with a null value is returned. -/
def bch2_btree_path_peek_slot_exact (path_pos : bpos) (k : bkey_s_c) : bkey_s_c :=
  match k.k with
  | some kk =>
    if bpos_eq path_pos kk.p then k
    else { k := some { bkey_init with p := path_pos }, v := none }
  | none => { k := some { bkey_init with p := path_pos }, v := none }

/-! ## Typed key lookup (`__bch2_bkey_get_iter`, btree_iter.h)

The peek result carries errors the way `bkey_s_c` does in C (an error
pointer in `.k`), modelled as `Except`.  The returned `Bool` is ghost
state: whether the iterator initialized by `bch2_trans_iter_init` is still
live (not exited) when the function returns. -/

def __bch2_bkey_get_iter (peek : Except Int bkey) (type : Nat) :
    Except Int bkey × Bool :=
  let k : Except Int bkey :=
    match peek with
    | .ok kk =>
      if type ≠ 0 ∧ kk.type ≠ type then
        .error (-BCH_ERR_ENOENT_bkey_type_mismatch)
      else .ok kk
    | .error e => .error e
  (k, match k with
      | .error _ => false  -- bch2_trans_iter_exit
      | .ok _ => true)

/-! ## Path limit (`btree_trans_too_many_iters`, btree_iter.h) -/

/-- Modelled from the spec: the soft bound on paths per transaction
("64 soft"); btree_types.h is not under src/. -/
def BTREE_ITER_NORMAL_LIMIT : Nat := 64

/-- `bitmap_weight(bitmap, nr)`: number of set bits among the first `nr`
bits. -/
def bitmap_weight (bitmap : List Bool) (nr : Nat) : Nat :=
  ((bitmap.take nr).filter id).length

/-- Modelled from the spec: `__bch2_btree_trans_too_many_iters` (not under
src/) raises the `too_many_iters` restart ("exceeding triggers
`too_many_iters` error and recommends commit+restart"). -/
def __bch2_btree_trans_too_many_iters : Int :=
  -BCH_ERR_transaction_restart_too_many_iters

/-- `btree_trans_too_many_iters` (btree_iter.h): signal once the number of
allocated paths passes `BTREE_ITER_NORMAL_LIMIT - 8`. -/
def btree_trans_too_many_iters (paths_allocated : List Bool) (nr_paths : Nat) : Int :=
  if bitmap_weight paths_allocated nr_paths > BTREE_ITER_NORMAL_LIMIT - 8 then
    __bch2_btree_trans_too_many_iters
  else 0

/-! ## Path reference counts (`__btree_path_get` / `__btree_path_put`,
btree_iter.h)

`ref` is a `u8` in C; `panic` and the `EBUG_ON` assertions are modelled by
`none`. -/

def U8_MAX : Nat := 255

structure btree_path where
  ref : Nat
  intent_ref : Nat
  deriving Repr, DecidableEq

def __btree_path_get (path : btree_path) (intent : Bool) : Option btree_path :=
  if path.ref = U8_MAX then none  -- panic("path %u refcount overflow")
  else some
    { ref := path.ref + 1
      intent_ref := path.intent_ref + (if intent then 1 else 0) }

def __btree_path_put (path : btree_path) (intent : Bool) : Option (Bool × btree_path) :=
  if path.ref = 0 then none  -- EBUG_ON(!path->ref)
  else if intent ∧ path.intent_ref = 0 then none  -- EBUG_ON(!path->intent_ref && intent)
  else
    let path' : btree_path :=
      { ref := path.ref - 1
        intent_ref := path.intent_ref - (if intent then 1 else 0) }
    some (decide (path'.ref = 0), path')

/-! ## `__bkey_val_copy` (btree_iter.h)

The source value is a byte region: `mem i` is the byte at offset `i` from
the value pointer, `val_bytes` is `bkey_val_bytes(src_k.k)`.  The result
is the destination buffer contents. -/

/-- The `memcpy(dst, src, n)` read: the first `n` bytes at the source. -/
def memcpy_read (n : Nat) (mem : Nat → Nat) : List Nat :=
  (List.range n).map mem

def __bkey_val_copy (dst_size val_bytes : Nat) (mem : Nat → Nat) : List Nat :=
  let b := min dst_size val_bytes
  memcpy_read b mem ++ List.replicate (dst_size - b) 0

/-! ## Key-scan loops of `rust_sanitize_journal` / `rust_sanitize_btree`
(rust_shims.c)

Both functions iterate the packed keys of a bset (`vstruct_for_each`) or
of a journal `btree_key` entry (`jset_entry_for_each_key`), breaking when
the key pointer reaches the buffer end or when the key's `u64s` field is
0; every key reached before that is passed to `sanitize_key`.  The scan is
modelled by the list of keys it processes: `ofs` is the current offset (in
u64 units) and `endOfs` the buffer end. -/

structure bkey_packed where
  u64s : Nat
  data : Nat
  deriving Repr, DecidableEq

def sanitize_scan_keys (endOfs : Nat) : Nat → List bkey_packed → List bkey_packed
  | _, [] => []
  | ofs, k :: ks =>
    if endOfs ≤ ofs then []  -- if ((void *) k >= end) break
    else if k.u64s = 0 then []  -- if (!k->u64s) break
    else k :: sanitize_scan_keys endOfs (ofs + k.u64s) ks

/-! ## Theorems: slot lookup, typed lookup, limits, refcounts, copies,
scans -/

/-- C4: `bch2_btree_path_peek_slot_exact` returns the peeked key unchanged
when it sits at exactly the path's position; otherwise (no key, or a key
at a different position) it returns a synthetic key at the path's
position: a deleted tombstone of size 0 with a null value. -/
theorem claim_C4_peek_slot_exact (pos : bpos) (k : bkey_s_c) :
    (∀ kk, k.k = some kk → bpos_eq pos kk.p = true →
      bch2_btree_path_peek_slot_exact pos k = k) ∧
    ((k.k = none ∨ ∀ kk, k.k = some kk → bpos_eq pos kk.p = false) →
      bch2_btree_path_peek_slot_exact pos k =
        { k := some { type := KEY_TYPE_deleted, p := pos, size := 0 }, v := none }) := by
  constructor
  · intro kk hk heq
    rw [bch2_btree_path_peek_slot_exact, hk]
    simp [heq]
  · intro hmiss
    rcases hk : k.k with _ | kk
    · rw [bch2_btree_path_peek_slot_exact, hk]
      rfl
    · have hne : bpos_eq pos kk.p = false := by
        rcases hmiss with hnone | hdiff
        · rw [hk] at hnone; exact absurd hnone (by simp)
        · exact hdiff kk hk
      rw [bch2_btree_path_peek_slot_exact, hk]
      simp [hne, bkey_init]

theorem claim_C4_peek_slot_exact_witness :
    (∀ kk, (bkey_s_c.mk (some ⟨3, ⟨1, 2, 4⟩, 0⟩) (some 9)).k = some kk →
      bpos_eq ⟨1, 2, 4⟩ kk.p = true →
      bch2_btree_path_peek_slot_exact ⟨1, 2, 4⟩
          (bkey_s_c.mk (some ⟨3, ⟨1, 2, 4⟩, 0⟩) (some 9)) =
        bkey_s_c.mk (some ⟨3, ⟨1, 2, 4⟩, 0⟩) (some 9)) ∧
    (((bkey_s_c.mk (some ⟨3, ⟨1, 2, 4⟩, 0⟩) (some 9)).k = none ∨
      ∀ kk, (bkey_s_c.mk (some ⟨3, ⟨1, 2, 4⟩, 0⟩) (some 9)).k = some kk →
        bpos_eq ⟨1, 2, 4⟩ kk.p = false) →
      bch2_btree_path_peek_slot_exact ⟨1, 2, 4⟩
          (bkey_s_c.mk (some ⟨3, ⟨1, 2, 4⟩, 0⟩) (some 9)) =
        { k := some { type := KEY_TYPE_deleted, p := ⟨1, 2, 4⟩, size := 0 },
          v := none }) :=
  claim_C4_peek_slot_exact ⟨1, 2, 4⟩ (bkey_s_c.mk (some ⟨3, ⟨1, 2, 4⟩, 0⟩) (some 9))

/-- C6: `btree_trans_too_many_iters` signals the `too_many_iters` restart
condition exactly when the number of allocated paths among the
transaction's `nr_paths` slots exceeds `BTREE_ITER_NORMAL_LIMIT - 8`, and
returns 0 otherwise; the signalled code belongs to the
`transaction_restart` class. -/
theorem claim_C6_too_many_iters (paths_allocated : List Bool) (nr_paths : Nat) :
    (btree_trans_too_many_iters paths_allocated nr_paths =
        -BCH_ERR_transaction_restart_too_many_iters ↔
      BTREE_ITER_NORMAL_LIMIT - 8 <
        ((paths_allocated.take nr_paths).filter id).length) ∧
    (btree_trans_too_many_iters paths_allocated nr_paths = 0 ↔
      ((paths_allocated.take nr_paths).filter id).length ≤
        BTREE_ITER_NORMAL_LIMIT - 8) ∧
    bch2_err_matches (-BCH_ERR_transaction_restart_too_many_iters)
      BCH_ERR_transaction_restart = true := by
  rw [btree_trans_too_many_iters, bitmap_weight]
  by_cases h : BTREE_ITER_NORMAL_LIMIT - 8 <
      ((paths_allocated.take nr_paths).filter id).length
  · rw [if_pos h]
    exact ⟨⟨fun _ => h, fun _ => rfl⟩,
           ⟨fun hc => absurd hc (by decide), fun hc => absurd h (by omega)⟩,
           by decide⟩
  · rw [if_neg h]
    exact ⟨⟨fun hc => absurd hc.symm (by decide), fun hc => absurd hc h⟩,
           ⟨fun _ => by omega, fun _ => rfl⟩,
           by decide⟩

theorem claim_C6_too_many_iters_witness :
    btree_trans_too_many_iters (List.replicate 60 true) 60 =
      -BCH_ERR_transaction_restart_too_many_iters :=
  (claim_C6_too_many_iters (List.replicate 60 true) 60).1.mpr (by decide)

/-- C7: `__bch2_bkey_get_iter` with a nonzero expected type turns a
successful peek of a key of a different type into the
`ENOENT_bkey_type_mismatch` error, and whenever it returns an error the
iterator has been exited (is no longer live). -/
theorem claim_C7_bkey_get_iter :
    (∀ kk type, type ≠ 0 → kk.type ≠ type →
      __bch2_bkey_get_iter (.ok kk) type =
        (.error (-BCH_ERR_ENOENT_bkey_type_mismatch), false)) ∧
    (∀ peek type e, (__bch2_bkey_get_iter peek type).1 = .error e →
      (__bch2_bkey_get_iter peek type).2 = false) := by
  constructor
  · intro kk type ht hne
    rw [__bch2_bkey_get_iter]
    simp [ht, hne]
  · intro peek type e herr
    rcases peek with e' | kk
    · rfl
    · rw [__bch2_bkey_get_iter] at herr ⊢
      by_cases hc : type ≠ 0 ∧ kk.type ≠ type
      · simp [hc]
      · simp only [hc, if_neg, if_false] at herr ⊢
        exact absurd herr (by simp)

theorem claim_C7_bkey_get_iter_witness :
    __bch2_bkey_get_iter (.ok ⟨5, ⟨0, 0, 0⟩, 0⟩) 7 =
        (.error (-BCH_ERR_ENOENT_bkey_type_mismatch), false) ∧
    ((__bch2_bkey_get_iter (.error (-5)) 7).1 = .error (-5) →
      (__bch2_bkey_get_iter (.error (-5)) 7).2 = false) :=
  ⟨claim_C7_bkey_get_iter.1 ⟨5, ⟨0, 0, 0⟩, 0⟩ 7 (by decide) (by decide),
   claim_C7_bkey_get_iter.2 (.error (-5)) 7 (-5)⟩

/-- C9: path reference counts never wrap: `__btree_path_get` panics
(`none`) exactly on a path whose `ref` is `U8_MAX` and otherwise
increments `ref` (staying within `u8` range); `__btree_path_put` asserts a
positive `ref` (and positive `intent_ref` when an intent reference is
dropped) and returns `true` exactly when the decrement brings `ref` to 0. -/
theorem claim_C9_path_refcount :
    (∀ p i, p.ref = U8_MAX → __btree_path_get p i = none) ∧
    (∀ p i p', p.ref ≤ U8_MAX → __btree_path_get p i = some p' →
      p.ref < U8_MAX ∧ p'.ref = p.ref + 1 ∧ p'.ref ≤ U8_MAX ∧
      p'.intent_ref = p.intent_ref + (if i then 1 else 0)) ∧
    (∀ p i, p.ref = 0 → __btree_path_put p i = none) ∧
    (∀ p, p.intent_ref = 0 → __btree_path_put p true = none) ∧
    (∀ p i b p', __btree_path_put p i = some (b, p') →
      0 < p.ref ∧ (i = true → 0 < p.intent_ref) ∧
      (b = true ↔ p.ref = 1) ∧ p'.ref = p.ref - 1) := by
  refine ⟨?_, ?_, ?_, ?_, ?_⟩
  · intro p i h
    rw [__btree_path_get]
    simp [h]
  · intro p i p' hle h
    rw [__btree_path_get] at h
    by_cases hmax : p.ref = U8_MAX
    · simp [hmax] at h
    · simp only [hmax, if_neg, if_false, Option.some.injEq] at h
      have hlt : p.ref < U8_MAX := by omega
      refine ⟨hlt, ?_, ?_, ?_⟩
      · rw [← h]
      · rw [← h]; simpa using hlt
      · rw [← h]
  · intro p i h
    rw [__btree_path_put]
    simp [h]
  · intro p h
    rw [__btree_path_put]
    by_cases h0 : p.ref = 0
    · simp [h0]
    · simp [h0, h]
  · intro p i b p' h
    rw [__btree_path_put] at h
    by_cases h0 : p.ref = 0
    · simp [h0] at h
    · by_cases hi : i ∧ p.intent_ref = 0
      · simp [h0, hi] at h
      · simp only [h0, hi, if_neg, if_false, Option.some.injEq, Prod.mk.injEq] at h
        obtain ⟨hb, hp⟩ := h
        refine ⟨by omega, ?_, ?_, by rw [← hp]⟩
        · intro hit
          rcases Nat.eq_zero_or_pos p.intent_ref with hz | hz
          · exact absurd ⟨hit, hz⟩ hi
          · exact hz
        · rw [← hb]
          simp only [decide_eq_true_eq]
          omega

theorem claim_C9_path_refcount_witness :
    __btree_path_get ⟨U8_MAX, 0⟩ false = none ∧
    (0 < (⟨1, 1⟩ : btree_path).ref ∧
      (true = true → 0 < (⟨1, 1⟩ : btree_path).intent_ref) ∧
      (true = true ↔ (⟨1, 1⟩ : btree_path).ref = 1) ∧
      (⟨0, 0⟩ : btree_path).ref = (⟨1, 1⟩ : btree_path).ref - 1) :=
  ⟨claim_C9_path_refcount.1 ⟨U8_MAX, 0⟩ false rfl,
   claim_C9_path_refcount.2.2.2.2 ⟨1, 1⟩ true true ⟨0, 0⟩ (by decide)⟩

/-- C10: `__bkey_val_copy` produces a fully initialized destination of
exactly `dst_size` bytes: the first `min dst_size val_bytes` bytes are the
source value's bytes, every remaining byte is 0, and the output only
depends on the first `val_bytes` bytes of the source region (nothing past
the value is read). -/
theorem claim_C10_bkey_val_copy (dst_size val_bytes : Nat) (mem : Nat → Nat) :
    ((__bkey_val_copy dst_size val_bytes mem).length = dst_size) ∧
    (∀ i, i < min dst_size val_bytes →
      (__bkey_val_copy dst_size val_bytes mem).getD i 0 = mem i) ∧
    (∀ i, min dst_size val_bytes ≤ i → i < dst_size →
      (__bkey_val_copy dst_size val_bytes mem).getD i 0 = 0) ∧
    (∀ mem', (∀ j, j < val_bytes → mem j = mem' j) →
      __bkey_val_copy dst_size val_bytes mem =
        __bkey_val_copy dst_size val_bytes mem') := by
  have hlen : (memcpy_read (min dst_size val_bytes) mem).length =
      min dst_size val_bytes := by simp [memcpy_read]
  refine ⟨?_, ?_, ?_, ?_⟩
  · simp only [__bkey_val_copy, List.length_append, hlen, List.length_replicate]
    omega
  · intro i hi
    rw [__bkey_val_copy, List.getD_append _ _ _ _ (by rw [hlen]; exact hi)]
    rw [memcpy_read, List.getD_eq_getElem _ _ (by simpa using hi)]
    simp
  · intro i hlo hhi
    rw [__bkey_val_copy, List.getD_append_right _ _ _ _ (by rw [hlen]; exact hlo)]
    rw [hlen, List.getD_eq_getElem _ _ (by simp; omega)]
    simp
  · intro mem' hagree
    rw [__bkey_val_copy, __bkey_val_copy]
    congr 1
    rw [memcpy_read, memcpy_read]
    apply List.map_congr_left
    intro j hj
    simp only [List.mem_range] at hj
    exact hagree j (by omega)

theorem claim_C10_bkey_val_copy_witness :
    ((__bkey_val_copy 4 2 (fun i => i + 10)).length = 4) ∧
    (∀ i, i < min 4 2 →
      (__bkey_val_copy 4 2 (fun i => i + 10)).getD i 0 = i + 10) ∧
    (∀ i, min 4 2 ≤ i → i < 4 →
      (__bkey_val_copy 4 2 (fun i => i + 10)).getD i 0 = 0) ∧
    (∀ mem', (∀ j, j < 2 → j + 10 = mem' j) →
      __bkey_val_copy 4 2 (fun i => i + 10) = __bkey_val_copy 4 2 mem') :=
  claim_C10_bkey_val_copy 4 2 (fun i => i + 10)

/-- C8: in the key-scan loops of `rust_sanitize_journal` and
`rust_sanitize_btree`, a key whose `u64s` field is 0 terminates the scan:
the processed keys are exactly those the scan yields from the keys before
it, and every processed key has a nonzero `u64s`. -/
theorem claim_C8_sanitize_scan (endOfs ofs : Nat) (pre post : List bkey_packed)
    (z : bkey_packed) (hz : z.u64s = 0) :
    sanitize_scan_keys endOfs ofs (pre ++ z :: post) =
      sanitize_scan_keys endOfs ofs pre ∧
    ∀ l o k, k ∈ sanitize_scan_keys endOfs o l → k.u64s ≠ 0 := by
  constructor
  · induction pre generalizing ofs with
    | nil =>
      rw [List.nil_append, sanitize_scan_keys, sanitize_scan_keys.eq_def]
      simp [hz]
    | cons a pre' ih =>
      rw [List.cons_append, sanitize_scan_keys, sanitize_scan_keys]
      by_cases hend : endOfs ≤ ofs
      · simp [hend]
      · by_cases ha : a.u64s = 0
        · simp [hend, ha]
        · simp only [hend, ha, if_neg, if_false, ite_false]
          rw [ih]
  · intro l
    induction l with
    | nil => intro o k hk; simp [sanitize_scan_keys] at hk
    | cons a l' ih =>
      intro o k hk
      rw [sanitize_scan_keys] at hk
      by_cases hend : endOfs ≤ o
      · simp [hend] at hk
      · by_cases ha : a.u64s = 0
        · simp [hend, ha] at hk
        · simp only [hend, ha, if_neg, if_false, ite_false] at hk
          rcases List.mem_cons.mp hk with h | h
          · subst h; exact ha
          · exact ih _ _ h

theorem claim_C8_sanitize_scan_witness :
    sanitize_scan_keys 100 0 ([⟨2, 5⟩, ⟨3, 6⟩] ++ ⟨0, 7⟩ :: [⟨4, 8⟩]) =
      sanitize_scan_keys 100 0 [⟨2, 5⟩, ⟨3, 6⟩] ∧
    ∀ l o k, k ∈ sanitize_scan_keys 100 o l → k.u64s ≠ 0 :=
  claim_C8_sanitize_scan 100 0 [⟨2, 5⟩, ⟨3, 6⟩] [⟨4, 8⟩] ⟨0, 7⟩ rfl

/-! ## Superblock journal buckets (journal_sb.c)

`bch2_journal_buckets_to_sb` turns the in-memory per-device journal
bucket list (`ja->buckets`, `ja->nr` entries) into the `journal_v2`
superblock field: a list of `(start, nr)` runs of contiguous buckets.
`bch2_sb_journal_v2_validate` checks a `journal_v2` field against the
member's `first_bucket`/`nbuckets`. -/

def EINVAL : Int := 22

/-- The superblock journal fields of one device: the legacy `journal` (v1,
individual buckets) and `journal_v2` (ranges) fields; `none` = field
absent/deleted. -/
structure sb_journal_fields where
  v1 : Option (List Nat)
  v2 : Option (List (Nat × Nat))
  deriving Repr, DecidableEq

/-- The range-building loop of `bch2_journal_buckets_to_sb`: `start`/`len`
are the currently open entry `j->d[dst]`, `prev` is `buckets[i - 1]`; a
bucket equal to `prev + 1` extends the open entry (`le64_add_cpu(&nr,1)`),
any other bucket closes it and opens a new one. -/
def journal_buckets_ranges (start len prev : Nat) :
    List Nat → List (Nat × Nat)
  | [] => [(start, len)]
  | b :: bs =>
    if b = prev + 1 then journal_buckets_ranges start (len + 1) b bs
    else (start, len) :: journal_buckets_ranges b 1 b bs

/-- `bch2_journal_buckets_to_sb` (journal_sb.c): with no journal buckets
both superblock journal fields are deleted; otherwise the bucket list is
encoded as contiguous ranges into `journal_v2` and the v1 `journal` field
is deleted. -/
def bch2_journal_buckets_to_sb (buckets : List Nat) : sb_journal_fields :=
  match buckets with
  | [] => { v1 := none, v2 := none }
  | b :: bs => { v1 := none, v2 := some (journal_buckets_ranges b 1 b bs) }

/-- Modelled from the spec: the decoder of `journal_v2` ranges back to the
in-memory bucket list (the reading side, `bch2_dev_journal_init`, is not
under src/; the spec requires the journal bucket list to "round-trip with
the in-memory representation"): each range `(start, nr)` contributes the
buckets `start, start+1, ..., start+nr-1` in order. -/
def journal_v2_decode (d : List (Nat × Nat)) : List Nat :=
  (d.map (fun e => List.range' e.1 e.2)).flatten

/-- The duplicate/overlap check of `bch2_sb_journal_v2_validate`: adjacent
(sorted) ranges `(start, end)` must satisfy `end ≤ next.start`. -/
def ranges_nonoverlapping : List (Nat × Nat) → Bool
  | [] => true
  | [_] => true
  | x :: y :: rest => decide (x.2 ≤ y.1) && ranges_nonoverlapping (y :: rest)

/-- The local array `b` of `bch2_sb_journal_v2_validate`: the `(start,
end)` pairs of the field's entries, sorted by `u64_range_cmp` (start). -/
def journal_v2_sorted_ranges (d : List (Nat × Nat)) : List (Nat × Nat) :=
  (d.map (fun e => (e.1, e.1 + e.2))).mergeSort (fun l r => l.1 ≤ r.1)

/-- `bch2_sb_journal_v2_validate` (journal_sb.c): an empty field is valid;
otherwise the `(start, nr)` entries are turned into `(start, end)` ranges,
sorted by start (`u64_range_cmp`), and rejected (-EINVAL) when the first
bucket is 0, the first bucket is below the member's `first_bucket`, the
last range extends past `nbuckets`, or two sorted ranges overlap. -/
def bch2_sb_journal_v2_validate (first_bucket nbuckets : Nat)
    (d : List (Nat × Nat)) : Int :=
  if d.length = 0 then 0
  else if ((journal_v2_sorted_ranges d).headD (0, 0)).1 = 0 then -EINVAL
  else if ((journal_v2_sorted_ranges d).headD (0, 0)).1 < first_bucket then
    -EINVAL
  else if nbuckets < ((journal_v2_sorted_ranges d).getLastD (0, 0)).2 then
    -EINVAL
  else if ranges_nonoverlapping (journal_v2_sorted_ranges d) then 0
  else -EINVAL

theorem getLastD_cons_irrel {α : Type} (c : α) (l : List α) (d d' : α) :
    (c :: l).getLastD d = (c :: l).getLastD d' := by
  rw [List.getLastD_eq_getLast?, List.getLastD_eq_getLast?, List.getLast?_cons]
  simp

theorem journal_buckets_ranges_spec (bs : List Nat) :
    ∀ start len prev, prev = start + len - 1 → 0 < len →
    List.Chain' (· < ·) (prev :: bs) →
    journal_buckets_ranges start len prev bs ≠ [] ∧
    journal_v2_decode (journal_buckets_ranges start len prev bs) =
      List.range' start len ++ bs ∧
    ((journal_buckets_ranges start len prev bs).headD (0, 0)).1 = start ∧
    (∀ e ∈ journal_buckets_ranges start len prev bs, start ≤ e.1 ∧ 0 < e.2) ∧
    List.Pairwise (fun a b => a.1 + a.2 ≤ b.1)
      (journal_buckets_ranges start len prev bs) ∧
    ((journal_buckets_ranges start len prev bs).map
        (fun e => e.1 + e.2)).getLastD 0 = (prev :: bs).getLastD 0 + 1 := by
  induction bs with
  | nil =>
    intro start len prev hprev hlen _
    refine ⟨by simp [journal_buckets_ranges], ?_, ?_, ?_, ?_, ?_⟩
    · simp [journal_buckets_ranges, journal_v2_decode]
    · simp [journal_buckets_ranges]
    · intro e he
      simp only [journal_buckets_ranges, List.mem_singleton] at he
      subst he
      exact ⟨le_refl _, hlen⟩
    · simp [journal_buckets_ranges]
    · simp only [journal_buckets_ranges, List.map_cons, List.map_nil,
        List.getLastD_cons, List.getLastD_nil]
      omega
  | cons b bs' ih =>
    intro start len prev hprev hlen hchain
    rw [List.chain'_cons] at hchain
    obtain ⟨hpb, hchain'⟩ := hchain
    by_cases heq : b = prev + 1
    · -- contiguous: extend the open range
      have hstep := ih start (len + 1) b (by omega) (by omega)
        (by exact hchain')
      obtain ⟨hne, hdec, hhead, hmem, hpair, hlast⟩ := hstep
      have hgo : journal_buckets_ranges start len prev (b :: bs') =
          journal_buckets_ranges start (len + 1) b bs' := by
        rw [journal_buckets_ranges]
        simp [heq]
      rw [hgo]
      refine ⟨hne, ?_, hhead, hmem, hpair, ?_⟩
      · rw [hdec]
        have : List.range' start (len + 1) = List.range' start len ++ [b] := by
          rw [List.range'_concat]
          simp
          omega
        rw [this, List.append_assoc]
        rfl
      · have hpr : (prev :: b :: bs').getLastD 0 = (b :: bs').getLastD 0 := by
          rw [List.getLastD_cons]
          exact getLastD_cons_irrel b bs' prev 0
        rw [hpr]
        exact hlast
    · -- discontiguous: close the range, open a new one at b
      have hstep := ih b 1 b (by omega) (by omega) (by exact hchain')
      obtain ⟨hne, hdec, hhead, hmem, hpair, hlast⟩ := hstep
      have hgo : journal_buckets_ranges start len prev (b :: bs') =
          (start, len) :: journal_buckets_ranges b 1 b bs' := by
        rw [journal_buckets_ranges]
        simp [heq]
      rw [hgo]
      refine ⟨by simp, ?_, by simp, ?_, ?_, ?_⟩
      · rw [journal_v2_decode, List.map_cons, List.flatten_cons]
        rw [journal_v2_decode] at hdec
        rw [hdec, List.range'_one]
        simp
      · intro e he
        rcases List.mem_cons.mp he with h | h
        · subst h
          exact ⟨le_refl _, hlen⟩
        · obtain ⟨h1, h2⟩ := hmem e h
          exact ⟨by omega, h2⟩
      · rw [List.pairwise_cons]
        refine ⟨?_, hpair⟩
        intro e he
        obtain ⟨h1, _⟩ := hmem e he
        omega
      · rcases hrest : journal_buckets_ranges b 1 b bs' with _ | ⟨x, xs⟩
        · exact absurd hrest hne
        · rw [hrest] at hlast
          have hpr : (prev :: b :: bs').getLastD 0 = (b :: bs').getLastD 0 := by
            rw [List.getLastD_cons]
            exact getLastD_cons_irrel b bs' prev 0
          have hmap : ((start, len) :: x :: xs).map (fun e => e.1 + e.2) =
              (start + len) :: (x :: xs).map (fun e => e.1 + e.2) := rfl
          rw [hmap, List.getLastD_cons, List.map_cons,
              getLastD_cons_irrel _ _ _ 0, hpr]
          simp only [List.map_cons] at hlast
          exact hlast

theorem getLastD_map_cons {α β : Type} (g : α → β) (x : α) (l : List α) :
    ∀ d d', ((x :: l).map g).getLastD d = g ((x :: l).getLastD d') := by
  induction l generalizing x with
  | nil => intro d d'; simp
  | cons y l ih =>
    intro d d'
    rw [List.map_cons, List.getLastD_cons, List.getLastD_cons]
    exact ih y d x

theorem ranges_nonoverlapping_of_pairwise :
    ∀ l : List (Nat × Nat),
    List.Pairwise (fun a b => a.2 ≤ b.1) l → ranges_nonoverlapping l = true
  | [], _ => rfl
  | [_], _ => rfl
  | x :: y :: rest, h => by
    rw [ranges_nonoverlapping]
    rw [List.pairwise_cons] at h
    obtain ⟨hx, hrest⟩ := h
    have h1 : x.2 ≤ y.1 := hx y (List.mem_cons_self y rest)
    have h2 : decide (x.2 ≤ y.1) = true := by simpa using h1
    rw [h2, Bool.true_and]
    exact ranges_nonoverlapping_of_pairwise (y :: rest) hrest

/-- C3: encoding a non-empty strictly increasing journal bucket list with
`bch2_journal_buckets_to_sb` deletes the v1 field and produces `journal_v2`
ranges that decode back to exactly the original bucket list; the encoding
is rejected by `bch2_sb_journal_v2_validate` when the first bucket is 0 or
below the member's `first_bucket` or the last bucket reaches `nbuckets`,
and accepted (0) when no bucket is 0, the first bucket is at least
`first_bucket`, and the last bucket is below `nbuckets`. -/
theorem claim_C3_journal_buckets_sb (first_bucket nbuckets : Nat)
    (buckets : List Nat) (hne : buckets ≠ [])
    (hchain : List.Chain' (· < ·) buckets) :
    (bch2_journal_buckets_to_sb buckets).v1 = none ∧
    ∃ rs, (bch2_journal_buckets_to_sb buckets).v2 = some rs ∧
      journal_v2_decode rs = buckets ∧
      (buckets.headD 0 = 0 →
        bch2_sb_journal_v2_validate first_bucket nbuckets rs = -EINVAL) ∧
      (buckets.headD 0 ≠ 0 → buckets.headD 0 < first_bucket →
        bch2_sb_journal_v2_validate first_bucket nbuckets rs = -EINVAL) ∧
      (0 ∉ buckets → first_bucket ≤ buckets.headD 0 →
        nbuckets ≤ buckets.getLastD 0 →
        bch2_sb_journal_v2_validate first_bucket nbuckets rs = -EINVAL) ∧
      (0 ∉ buckets → first_bucket ≤ buckets.headD 0 →
        buckets.getLastD 0 < nbuckets →
        bch2_sb_journal_v2_validate first_bucket nbuckets rs = 0) := by
  rcases buckets with _ | ⟨b, bs⟩
  · exact absurd rfl hne
  obtain ⟨hnil, hdec, hhead, hmem, hpair, hlast⟩ :=
    journal_buckets_ranges_spec bs b 1 b (by omega) (by omega) hchain
  refine ⟨rfl, journal_buckets_ranges b 1 b bs, rfl, ?_, ?_⟩
  · rw [hdec, List.range'_one]
    rfl
  rcases hrest : journal_buckets_ranges b 1 b bs with _ | ⟨x, xs⟩
  · exact absurd hrest hnil
  rw [hrest] at hhead hmem hpair hlast
  simp only [List.headD_cons] at hhead
  -- hhead : x.1 = b
  have hx1 : x.1 = b := hhead
  -- the mapped & sorted range list used by the validator
  have hp : List.Pairwise
      (fun l r : Nat × Nat => decide (l.1 ≤ r.1) = true)
      ((x :: xs).map (fun e => (e.1, e.1 + e.2))) := by
    rw [List.pairwise_map]
    refine hpair.imp ?_
    intro a c h
    simp only [decide_eq_true_eq]
    omega
  have hsorted : journal_v2_sorted_ranges (x :: xs) =
      (x :: xs).map (fun e => (e.1, e.1 + e.2)) := by
    rw [journal_v2_sorted_ranges]
    exact List.mergeSort_of_sorted hp
  have hheadm : ((journal_v2_sorted_ranges (x :: xs)).headD (0, 0)).1 = b := by
    rw [hsorted, List.map_cons, List.headD_cons]
    exact hx1
  have hlastm : ((journal_v2_sorted_ranges (x :: xs)).getLastD (0, 0)).2 =
      (b :: bs).getLastD 0 + 1 := by
    rw [hsorted, getLastD_map_cons (fun e => (e.1, e.1 + e.2)) x xs (0, 0) x]
    rw [getLastD_map_cons (fun e => e.1 + e.2) x xs 0 x] at hlast
    exact hlast
  have hnov : ranges_nonoverlapping (journal_v2_sorted_ranges (x :: xs)) = true := by
    rw [hsorted]
    apply ranges_nonoverlapping_of_pairwise
    rw [List.pairwise_map]
    refine hpair.imp ?_
    intro a c h
    exact h
  have hval : ∀ fb nb : Nat,
      bch2_sb_journal_v2_validate fb nb (x :: xs) =
        (if b = 0 then -EINVAL
         else if b < fb then -EINVAL
         else if nb < (b :: bs).getLastD 0 + 1 then -EINVAL
         else 0) := by
    intro fb nb
    rw [bch2_sb_journal_v2_validate, if_neg (by simp)]
    rw [hheadm, hlastm]
    by_cases h0 : b = 0
    · rw [if_pos h0, if_pos h0]
    · rw [if_neg h0, if_neg h0]
      by_cases h1 : b < fb
      · rw [if_pos h1, if_pos h1]
      · rw [if_neg h1, if_neg h1]
        by_cases h2 : nb < (b :: bs).getLastD 0 + 1
        · rw [if_pos h2, if_pos h2]
        · rw [if_neg h2, if_neg h2, if_pos hnov]
  refine ⟨?_, ?_, ?_, ?_⟩
  · intro h0
    rw [List.headD_cons] at h0
    rw [hval, if_pos h0]
  · intro h0 h1
    rw [List.headD_cons] at h0 h1
    rw [hval, if_neg h0, if_pos h1]
  · intro h0 h1 h2
    rw [List.headD_cons] at h1
    have hb0 : b ≠ 0 := fun hc => h0 (hc ▸ List.mem_cons_self b bs)
    rw [hval, if_neg hb0, if_neg (by omega), if_pos (by omega)]
  · intro h0 h1 h2
    rw [List.headD_cons] at h1
    have hb0 : b ≠ 0 := fun hc => h0 (hc ▸ List.mem_cons_self b bs)
    rw [hval, if_neg hb0, if_neg (by omega), if_neg (by omega)]

theorem claim_C3_journal_buckets_sb_witness :
    (bch2_journal_buckets_to_sb [3, 4, 7]).v1 = none ∧
    ∃ rs, (bch2_journal_buckets_to_sb [3, 4, 7]).v2 = some rs ∧
      journal_v2_decode rs = [3, 4, 7] ∧
      (([3, 4, 7] : List Nat).headD 0 = 0 →
        bch2_sb_journal_v2_validate 2 100 rs = -EINVAL) ∧
      (([3, 4, 7] : List Nat).headD 0 ≠ 0 →
        ([3, 4, 7] : List Nat).headD 0 < 2 →
        bch2_sb_journal_v2_validate 2 100 rs = -EINVAL) ∧
      (0 ∉ ([3, 4, 7] : List Nat) → 2 ≤ ([3, 4, 7] : List Nat).headD 0 →
        100 ≤ ([3, 4, 7] : List Nat).getLastD 0 →
        bch2_sb_journal_v2_validate 2 100 rs = -EINVAL) ∧
      (0 ∉ ([3, 4, 7] : List Nat) → 2 ≤ ([3, 4, 7] : List Nat).headD 0 →
        ([3, 4, 7] : List Nat).getLastD 0 < 100 →
        bch2_sb_journal_v2_validate 2 100 rs = 0) :=
  claim_C3_journal_buckets_sb 2 100 [3, 4, 7] (by simp)
    (by simp [List.chain'_cons])

/-! ## Snapshot table (snapshots/types.h)

In-memory snapshot table entry, indexed by snapshot ID.  Snapshots form a
binary tree where IDs decrease going deeper: a parent's ID is always
greater than its children's.  Each node has up to two children
(`children`, indexed by `Fin 2`), a skiplist of three ancestor IDs sorted
ascending (`skip`, indexed by `Fin 3`), and a 128-bit ancestor bitmap
(`is_ancestor`, bit `ancestor - id - 1` set for ancestors within 128
IDs). -/

def IS_ANCESTOR_BITMAP : Nat := 128

inductive snapshot_id_state where
  | empty
  | live
  | deleted
  deriving Repr, DecidableEq

structure snapshot_t where
  state : snapshot_id_state
  parent : Nat
  /-- skiplist: random ancestors, sorted ascending; try [2] first -/
  skip : Fin 3 → Nat
  depth : Nat
  /-- normalized: [0] ≥ [1]; 0 = no child -/
  children : Fin 2 → Nat
  subvol : Nat
  tree : Nat
  /-- bit (ancestor - id - 1) set for ancestors within 128 IDs -/
  is_ancestor : Nat → Bool

/-- The all-zero (`SNAPSHOT_ID_empty`) table entry. -/
def snapshot_t.empty : snapshot_t :=
  { state := .empty, parent := 0, skip := fun _ => 0, depth := 0,
    children := fun _ => 0, subvol := 0, tree := 0,
    is_ancestor := fun _ => false }

/-- `__snapshot_t`: the table entry for a snapshot ID (absent IDs read as
empty entries). -/
def __snapshot_t (t : List snapshot_t) (id : Nat) : snapshot_t :=
  t.getD id snapshot_t.empty

/-- The plain parent walk ("3. Parent walk: fallback linear traversal" in
types.h): is `ancestor` reachable from `id` through the `parent` chain
(reflexively)?  `fuel` bounds the number of parent steps; ID 0 means no
snapshot. -/
def snapshot_parent_walk (t : List snapshot_t) (fuel id ancestor : Nat) : Bool :=
  if id = ancestor then true
  else if id = 0 then false
  else match fuel with
    | 0 => false
    | fuel + 1 => snapshot_parent_walk t fuel (__snapshot_t t id).parent ancestor

/-- Reference ancestor relation: the parent walk with enough fuel to
traverse the whole table (parent IDs strictly increase and stay inside the
table, so `t.length` steps always suffice). -/
def snapshot_walk_is_ancestor (t : List snapshot_t) (id ancestor : Nat) : Bool :=
  snapshot_parent_walk t t.length id ancestor

/-- Modelled from the spec: the skiplist jump of the ancestor test — "jump
via the skiplist entry with the largest ID ≤ A" (the skiplist is sorted
ascending, so `skip[2]` is tried first per types.h), falling back to the
parent when no skiplist entry qualifies. -/
def get_ancestor_below (t : List snapshot_t) (id ancestor : Nat) : Nat :=
  let s := __snapshot_t t id
  if s.skip 2 ≤ ancestor then s.skip 2
  else if s.skip 1 ≤ ancestor then s.skip 1
  else if s.skip 0 ≤ ancestor then s.skip 0
  else s.parent

/-- The bitmap consultation: bit `ancestor - id - 1` of `id`'s ancestor
bitmap (types.h: "bit (ancestor - id - 1) set for ancestors within 128
IDs"). -/
def test_ancestor_bitmap (t : List snapshot_t) (id ancestor : Nat) : Bool :=
  (__snapshot_t t id).is_ancestor (ancestor - id - 1)

/-- Modelled from the spec: the ancestor test `is_ancestor(A, D)` — "if
`A == D` return true; if the distance is within the 128-bit bitmap consult
the bitmap; else jump via the skiplist entry with the largest ID ≤ A and
recurse".  Ancestors always have strictly greater IDs (types.h), so a
candidate below the current ID (or ID 0, no snapshot) is not an ancestor.
`fuel` bounds the number of skiplist jumps. -/
def bch2_snapshot_is_ancestor (t : List snapshot_t) (fuel id ancestor : Nat) :
    Bool :=
  if id = ancestor then true
  else if id = 0 ∨ ancestor < id then false
  else if ancestor - id ≤ IS_ANCESTOR_BITMAP then
    test_ancestor_bitmap t id ancestor
  else match fuel with
    | 0 => false
    | fuel + 1 =>
      bch2_snapshot_is_ancestor t fuel (get_ancestor_below t id ancestor) ancestor

/-- Well-formedness of the snapshot table, from the documented invariants
of snapshots/types.h: parents have strictly greater IDs than their
children and stay inside the table; the skiplist is sorted ascending and
holds genuine ancestors (of strictly greater ID), with zero entries only
on parentless (root) nodes; the recorded children point back to this node
as parent; and bitmap bit `d` is set exactly when `id + d + 1` is an
ancestor. -/
def snapshot_node_wf (t : List snapshot_t) (id : Nat) : Prop :=
  ((__snapshot_t t id).parent = 0 ∨
    (id < (__snapshot_t t id).parent ∧ (__snapshot_t t id).parent < t.length)) ∧
  ((__snapshot_t t id).skip 0 ≤ (__snapshot_t t id).skip 1 ∧
    (__snapshot_t t id).skip 1 ≤ (__snapshot_t t id).skip 2) ∧
  (∀ j : Fin 3, (__snapshot_t t id).skip j ≠ 0 →
    id < (__snapshot_t t id).skip j ∧
    snapshot_walk_is_ancestor t id ((__snapshot_t t id).skip j) = true) ∧
  (∀ j : Fin 3, (__snapshot_t t id).skip j = 0 →
    (__snapshot_t t id).parent = 0) ∧
  (∀ j : Fin 2, (__snapshot_t t id).children j ≠ 0 →
    (__snapshot_t t id).children j < t.length ∧
    (__snapshot_t t ((__snapshot_t t id).children j)).parent = id) ∧
  (∀ d, d < IS_ANCESTOR_BITMAP →
    (__snapshot_t t id).is_ancestor d =
      snapshot_walk_is_ancestor t id (id + d + 1))

instance snapshot_node_wf_decidable (t : List snapshot_t) (id : Nat) :
    Decidable (snapshot_node_wf t id) := by
  unfold snapshot_node_wf
  infer_instance

def snapshot_table_wf (t : List snapshot_t) : Prop :=
  ∀ id, id < t.length → 0 < id → snapshot_node_wf t id

/-! Basic properties of the parent walk. -/

theorem walk_self (t : List snapshot_t) (fuel anc : Nat) :
    snapshot_parent_walk t fuel anc anc = true := by
  rw [snapshot_parent_walk.eq_def]
  simp

theorem walk_zero (t : List snapshot_t) (fuel anc : Nat) (h : anc ≠ 0) :
    snapshot_parent_walk t fuel 0 anc = false := by
  rw [snapshot_parent_walk.eq_def]
  simp [Ne.symm h]

theorem walk_step (t : List snapshot_t) (fuel id anc : Nat)
    (h1 : id ≠ anc) (h2 : id ≠ 0) :
    snapshot_parent_walk t (fuel + 1) id anc =
      snapshot_parent_walk t fuel (__snapshot_t t id).parent anc := by
  rw [snapshot_parent_walk.eq_def]
  simp [h1, h2]

theorem walk_fuel_zero (t : List snapshot_t) (id anc : Nat)
    (h1 : id ≠ anc) (h2 : id ≠ 0) :
    snapshot_parent_walk t 0 id anc = false := by
  rw [snapshot_parent_walk.eq_def]
  simp [h1, h2]

theorem snapshot_t_out_of_range (t : List snapshot_t) (id : Nat)
    (h : t.length ≤ id) : __snapshot_t t id = snapshot_t.empty := by
  rw [__snapshot_t, List.getD_eq_default]
  exact h

/-- A candidate above the current ID is never reached: parent IDs strictly
increase along the walk. -/
theorem walk_above (t : List snapshot_t) (hwf : snapshot_table_wf t)
    (anc : Nat) (hanc : 0 < anc) :
    ∀ fuel id, anc < id → snapshot_parent_walk t fuel id anc = false := by
  intro fuel
  induction fuel with
  | zero =>
    intro id hlt
    exact walk_fuel_zero t id anc (by omega) (by omega)
  | succ fuel ih =>
    intro id hlt
    rw [walk_step t fuel id anc (by omega) (by omega)]
    by_cases hrange : id < t.length
    · rcases (hwf id hrange (by omega)).1 with hp | hp
      · rw [hp]
        exact walk_zero t fuel anc (by omega)
      · exact ih _ (by omega)
    · rw [snapshot_t_out_of_range t id (by omega)]
      exact walk_zero t fuel anc (by omega)

/-- Along a successful walk the target is at least the starting ID. -/
theorem walk_le (t : List snapshot_t) (hwf : snapshot_table_wf t)
    (anc : Nat) (hanc : 0 < anc) :
    ∀ fuel id, id < t.length →
      snapshot_parent_walk t fuel id anc = true → id ≤ anc := by
  intro fuel
  induction fuel with
  | zero =>
    intro id _ h
    by_cases he : id = anc
    · omega
    · by_cases h0 : id = 0
      · omega
      · rw [walk_fuel_zero t id anc he h0] at h
        exact absurd h (by simp)
  | succ fuel ih =>
    intro id hlen h
    by_cases he : id = anc
    · omega
    · by_cases h0 : id = 0
      · omega
      · rw [walk_step t fuel id anc he h0] at h
        rcases (hwf id hlen (by omega)).1 with hp | hp
        · rw [hp, walk_zero t fuel anc (by omega)] at h
          exact absurd h (by simp)
        · have := ih _ hp.2 h
          omega

/-- A successful walk from inside the table stays inside the table. -/
theorem walk_target_lt (t : List snapshot_t) (hwf : snapshot_table_wf t)
    (anc : Nat) (hanc : 0 < anc) :
    ∀ fuel id, id < t.length →
      snapshot_parent_walk t fuel id anc = true → anc < t.length := by
  intro fuel
  induction fuel with
  | zero =>
    intro id hlen h
    by_cases he : id = anc
    · omega
    · by_cases h0 : id = 0
      · rw [h0, walk_zero t 0 anc (by omega)] at h
        exact absurd h (by simp)
      · rw [walk_fuel_zero t id anc he h0] at h
        exact absurd h (by simp)
  | succ fuel ih =>
    intro id hlen h
    by_cases he : id = anc
    · omega
    · by_cases h0 : id = 0
      · rw [h0, walk_zero t (fuel + 1) anc (by omega)] at h
        exact absurd h (by simp)
      · rw [walk_step t fuel id anc he h0] at h
        rcases (hwf id hlen (by omega)).1 with hp | hp
        · rw [hp, walk_zero t fuel anc (by omega)] at h
          exact absurd h (by simp)
        · exact ih _ hp.2 h

/-- Any fuel of at least `t.length - id` steps gives the walk's exact
answer: parent IDs strictly increase inside the table, so the walk
terminates within that many steps. -/
theorem walk_fuel_irrel (t : List snapshot_t) (hwf : snapshot_table_wf t)
    (anc : Nat) (hanc : 0 < anc) :
    ∀ k id f f', t.length - id ≤ k → id < t.length →
      t.length - id ≤ f → t.length - id ≤ f' →
      snapshot_parent_walk t f id anc = snapshot_parent_walk t f' id anc := by
  intro k
  induction k with
  | zero => intro id f f' hk hlen _ _; omega
  | succ k ih =>
    intro id f f' hk hlen hf hf'
    by_cases he : id = anc
    · rw [he, walk_self, walk_self]
    · by_cases h0 : id = 0
      · rw [h0, walk_zero t f anc (by omega), walk_zero t f' anc (by omega)]
      · rcases f with _ | fu
        · omega
        rcases f' with _ | fu'
        · omega
        rw [walk_step t fu id anc he h0, walk_step t fu' id anc he h0]
        rcases (hwf id hlen (by omega)).1 with hp | hp
        · rw [hp, walk_zero t fu anc (by omega), walk_zero t fu' anc (by omega)]
        · exact ih _ fu fu' (by omega) hp.2 (by omega) (by omega)

/-- One parent step preserves the saturated walk's answer. -/
theorem walk_is_ancestor_step (t : List snapshot_t) (hwf : snapshot_table_wf t)
    (id anc : Nat) (hanc : 0 < anc) (hlen : id < t.length) (h0 : 0 < id)
    (hne : id ≠ anc)
    (hp : id < (__snapshot_t t id).parent ∧ (__snapshot_t t id).parent < t.length) :
    snapshot_walk_is_ancestor t id anc =
      snapshot_walk_is_ancestor t (__snapshot_t t id).parent anc := by
  rw [snapshot_walk_is_ancestor, snapshot_walk_is_ancestor]
  calc snapshot_parent_walk t t.length id anc
      = snapshot_parent_walk t ((t.length - 1) + 1) id anc := by
        rw [show (t.length - 1) + 1 = t.length from by omega]
    _ = snapshot_parent_walk t (t.length - 1) (__snapshot_t t id).parent anc :=
        walk_step t _ id anc hne (by omega)
    _ = snapshot_parent_walk t t.length (__snapshot_t t id).parent anc :=
        walk_fuel_irrel t hwf anc hanc (t.length - (__snapshot_t t id).parent)
          _ _ _ (le_refl _) hp.2 (by omega) (by omega)

/-- Jumping to an intermediate ancestor `m ≤ anc` does not change the
walk's answer for `anc`: the parent chain is strictly increasing, so the
chain elements at or above `m` are exactly the chain of `m`. -/
theorem walk_through (t : List snapshot_t) (hwf : snapshot_table_wf t)
    (anc : Nat) (hanc : 0 < anc) :
    ∀ k id m, t.length - id ≤ k → id < t.length → 0 < id → 0 < m →
      snapshot_walk_is_ancestor t id m = true → m ≤ anc →
      snapshot_walk_is_ancestor t id anc = snapshot_walk_is_ancestor t m anc := by
  intro k
  induction k with
  | zero => intro id m hk hlen _ _ _ _; omega
  | succ k ih =>
    intro id m hk hlen hid hm hreach hmanc
    by_cases he : id = m
    · rw [he]
    · rcases (hwf id hlen hid).1 with hp | hp
      · -- parentless node: the walk to m could not have succeeded
        have hfalse : snapshot_walk_is_ancestor t id m = false := by
          rw [snapshot_walk_is_ancestor,
              show t.length = (t.length - 1) + 1 from by omega,
              walk_step t _ id m he (by omega), hp]
          exact walk_zero t _ m (by omega)
        rw [hfalse] at hreach
        exact absurd hreach (by simp)
      · have hreach' : snapshot_walk_is_ancestor t (__snapshot_t t id).parent m = true := by
          rw [← walk_is_ancestor_step t hwf id m hm hlen hid he hp]
          exact hreach
        have hple : (__snapshot_t t id).parent ≤ m :=
          walk_le t hwf m hm t.length _ hp.2 hreach'
        have hstep := walk_is_ancestor_step t hwf id anc hanc hlen hid (by omega) hp
        rw [hstep]
        exact ih _ m (by omega) hp.2 (by omega) hm hreach' hmanc

/-! Unfolding equations of the ancestor test's three cases. -/

theorem is_ancestor_self (t : List snapshot_t) (fuel anc : Nat) :
    bch2_snapshot_is_ancestor t fuel anc anc = true := by
  rw [bch2_snapshot_is_ancestor.eq_def]
  simp

theorem is_ancestor_zero (t : List snapshot_t) (fuel anc : Nat) (h : anc ≠ 0) :
    bch2_snapshot_is_ancestor t fuel 0 anc = false := by
  rw [bch2_snapshot_is_ancestor.eq_def]
  simp [Ne.symm h]

theorem is_ancestor_below (t : List snapshot_t) (fuel id anc : Nat)
    (h : anc < id) : bch2_snapshot_is_ancestor t fuel id anc = false := by
  rw [bch2_snapshot_is_ancestor.eq_def]
  rw [if_neg (by omega), if_pos (Or.inr h)]

theorem is_ancestor_bitmap_case (t : List snapshot_t) (fuel id anc : Nat)
    (he : id ≠ anc) (hz : ¬(id = 0 ∨ anc < id)) (hb : anc - id ≤ IS_ANCESTOR_BITMAP) :
    bch2_snapshot_is_ancestor t fuel id anc = test_ancestor_bitmap t id anc := by
  rw [bch2_snapshot_is_ancestor.eq_def]
  rw [if_neg he, if_neg hz, if_pos hb]

theorem is_ancestor_far_step (t : List snapshot_t) (fuel id anc : Nat)
    (he : id ≠ anc) (hz : ¬(id = 0 ∨ anc < id)) (hb : ¬(anc - id ≤ IS_ANCESTOR_BITMAP)) :
    bch2_snapshot_is_ancestor t (fuel + 1) id anc =
      bch2_snapshot_is_ancestor t fuel (get_ancestor_below t id anc) anc := by
  rw [bch2_snapshot_is_ancestor.eq_def]
  rw [if_neg he, if_neg hz, if_neg hb]

theorem is_ancestor_far_fuel_zero (t : List snapshot_t) (id anc : Nat)
    (he : id ≠ anc) (hz : ¬(id = 0 ∨ anc < id)) (hb : ¬(anc - id ≤ IS_ANCESTOR_BITMAP)) :
    bch2_snapshot_is_ancestor t 0 id anc = false := by
  rw [bch2_snapshot_is_ancestor.eq_def]
  rw [if_neg he, if_neg hz, if_neg hb]

/-- A skiplist jump or parent fallback from a far-away node lands on a
state with the same answer, and the recursion resolves it. -/
theorem jump_target_ok (t : List snapshot_t) (hwf : snapshot_table_wf t)
    (anc : Nat) (hanc : 0 < anc) (fuel id : Nat)
    (hlen : id < t.length) (hid : 0 < id) (hidanc : id < anc)
    (m : Nat)
    (hm_src : (∃ j : Fin 3, m = (__snapshot_t t id).skip j ∧ m ≤ anc) ∨
      m = (__snapshot_t t id).parent)
    (ihfuel : ∀ id', id' < t.length → t.length - id' ≤ fuel →
      bch2_snapshot_is_ancestor t fuel id' anc = snapshot_walk_is_ancestor t id' anc)
    (hfuel : t.length - id ≤ fuel + 1) :
    bch2_snapshot_is_ancestor t fuel m anc = snapshot_walk_is_ancestor t id anc := by
  have hwfid := hwf id hlen hid
  by_cases hm0 : m = 0
  · -- the jump target is 0: the node is a root (parent 0) and the walk fails
    have hp0 : (__snapshot_t t id).parent = 0 := by
      rcases hm_src with ⟨j, hj, _⟩ | hj
      · exact hwfid.2.2.2.1 j (by rw [← hj]; exact hm0)
      · rw [← hj]; exact hm0
    have hwalk : snapshot_walk_is_ancestor t id anc = false := by
      rw [snapshot_walk_is_ancestor,
          show t.length = (t.length - 1) + 1 from by omega,
          walk_step t _ id anc (by omega) (by omega), hp0]
      exact walk_zero t _ anc (by omega)
    rw [hwalk, hm0]
    exact is_ancestor_zero t fuel anc (by omega)
  · rcases hm_src with ⟨j, hj, hm_le⟩ | hj
    · -- a nonzero skiplist entry: a genuine ancestor of id, below anc
      obtain ⟨hmgt, hmreach⟩ := hwfid.2.2.1 j (by rw [← hj]; exact hm0)
      rw [← hj] at hmgt hmreach
      have hmlen : m < t.length :=
        walk_target_lt t hwf m (by omega) t.length id hlen hmreach
      have hthrough := walk_through t hwf anc hanc (t.length - id) id m
        (le_refl _) hlen hid (by omega) hmreach hm_le
      rw [hthrough]
      exact ihfuel m hmlen (by omega)
    · -- the parent fallback
      rcases hwfid.1 with hp | hp
      · exact absurd (hj.trans hp) hm0
      · rw [hj]
        rw [walk_is_ancestor_step t hwf id anc hanc hlen hid (by omega) hp]
        exact ihfuel (__snapshot_t t id).parent hp.2 (by omega)

/-- Under well-formedness, the skiplist/bitmap ancestor test agrees with
the plain parent walk. -/
theorem is_ancestor_eq_walk (t : List snapshot_t) (hwf : snapshot_table_wf t)
    (anc : Nat) (hanc : 0 < anc) :
    ∀ fuel id, id < t.length → t.length - id ≤ fuel →
      bch2_snapshot_is_ancestor t fuel id anc =
        snapshot_walk_is_ancestor t id anc := by
  intro fuel
  induction fuel with
  | zero => intro id hlen hf; omega
  | succ fuel ih =>
    intro id hlen hf
    by_cases he : id = anc
    · rw [he, is_ancestor_self]
      exact (walk_self t t.length anc).symm
    · by_cases hz : id = 0 ∨ anc < id
      · rcases hz with h0 | hgt
        · rw [h0, is_ancestor_zero t _ anc (by omega)]
          exact (walk_zero t t.length anc (by omega)).symm
        · rw [is_ancestor_below t _ id anc hgt]
          exact (walk_above t hwf anc hanc t.length id hgt).symm
      · have hid : 0 < id := by omega
        have hidanc : id < anc := by omega
        by_cases hb : anc - id ≤ IS_ANCESTOR_BITMAP
        · rw [is_ancestor_bitmap_case t _ id anc he hz hb, test_ancestor_bitmap]
          have hbit := (hwf id hlen hid).2.2.2.2.2 (anc - id - 1)
            (by rw [IS_ANCESTOR_BITMAP] at hb ⊢; omega)
          rw [hbit, show id + (anc - id - 1) + 1 = anc from by omega]
        · rw [is_ancestor_far_step t fuel id anc he hz hb]
          -- which jump target get_ancestor_below picks
          by_cases h2 : (__snapshot_t t id).skip 2 ≤ anc
          · have hgb : get_ancestor_below t id anc = (__snapshot_t t id).skip 2 := by
              rw [get_ancestor_below]
              simp only [if_pos h2]
            rw [hgb]
            exact jump_target_ok t hwf anc hanc fuel id hlen hid hidanc _
              (Or.inl ⟨2, rfl, h2⟩) ih hf
          · by_cases h1 : (__snapshot_t t id).skip 1 ≤ anc
            · have hgb : get_ancestor_below t id anc = (__snapshot_t t id).skip 1 := by
                rw [get_ancestor_below]
                simp only [if_neg h2, if_pos h1]
              rw [hgb]
              exact jump_target_ok t hwf anc hanc fuel id hlen hid hidanc _
                (Or.inl ⟨1, rfl, h1⟩) ih hf
            · by_cases hsk0 : (__snapshot_t t id).skip 0 ≤ anc
              · have hgb : get_ancestor_below t id anc = (__snapshot_t t id).skip 0 := by
                  rw [get_ancestor_below]
                  simp only [if_neg h2, if_neg h1, if_pos hsk0]
                rw [hgb]
                exact jump_target_ok t hwf anc hanc fuel id hlen hid hidanc _
                  (Or.inl ⟨0, rfl, hsk0⟩) ih hf
              · have hgb : get_ancestor_below t id anc = (__snapshot_t t id).parent := by
                  rw [get_ancestor_below]
                  simp only [if_neg h2, if_neg h1, if_neg hsk0]
                rw [hgb]
                rcases (hwf id hlen hid).1 with hp | hp
                · -- root: both sides false
                  have hwalk : snapshot_walk_is_ancestor t id anc = false := by
                    rw [snapshot_walk_is_ancestor,
                        show t.length = (t.length - 1) + 1 from by omega,
                        walk_step t _ id anc (by omega) (by omega), hp]
                    exact walk_zero t _ anc (by omega)
                  rw [hwalk, hp]
                  exact is_ancestor_zero t fuel anc (by omega)
                · exact jump_target_ok t hwf anc hanc fuel id hlen hid hidanc _
                    (Or.inr rfl) ih hf

/-- With the skiplist sorted ascending, `get_ancestor_below` returns the
largest skiplist entry `≤ anc`, falling back to the parent when no entry
qualifies. -/
theorem get_ancestor_below_spec (t : List snapshot_t) (id anc : Nat)
    (hs01 : (__snapshot_t t id).skip 0 ≤ (__snapshot_t t id).skip 1)
    (hs12 : (__snapshot_t t id).skip 1 ≤ (__snapshot_t t id).skip 2) :
    ((∃ j : Fin 3, (__snapshot_t t id).skip j ≤ anc) →
      ∃ j : Fin 3, get_ancestor_below t id anc = (__snapshot_t t id).skip j ∧
        (__snapshot_t t id).skip j ≤ anc ∧
        ∀ j' : Fin 3, (__snapshot_t t id).skip j' ≤ anc →
          (__snapshot_t t id).skip j' ≤ (__snapshot_t t id).skip j) ∧
    ((∀ j : Fin 3, anc < (__snapshot_t t id).skip j) →
      get_ancestor_below t id anc = (__snapshot_t t id).parent) := by
  constructor
  · intro hex
    by_cases h2 : (__snapshot_t t id).skip 2 ≤ anc
    · refine ⟨2, ?_, h2, ?_⟩
      · rw [get_ancestor_below]
        simp only [if_pos h2]
      · intro j' _
        fin_cases j'
        · exact hs01.trans hs12
        · exact hs12
        · exact le_refl _
    · by_cases h1 : (__snapshot_t t id).skip 1 ≤ anc
      · refine ⟨1, ?_, h1, ?_⟩
        · rw [get_ancestor_below]
          simp only [if_neg h2, if_pos h1]
        · intro j' hj'
          fin_cases j'
          · exact hs01
          · exact le_refl _
          · exact absurd hj' h2
      · by_cases h0 : (__snapshot_t t id).skip 0 ≤ anc
        · refine ⟨0, ?_, h0, ?_⟩
          · rw [get_ancestor_below]
            simp only [if_neg h2, if_neg h1, if_pos h0]
          · intro j' hj'
            fin_cases j'
            · exact le_refl _
            · exact absurd hj' h1
            · exact absurd hj' h2
        · obtain ⟨j, hj⟩ := hex
          fin_cases j
          · exact absurd hj h0
          · exact absurd hj h1
          · exact absurd hj h2
  · intro hall
    rw [get_ancestor_below]
    simp only [if_neg (not_le.mpr (hall 2)), if_neg (not_le.mpr (hall 1)),
      if_neg (not_le.mpr (hall 0))]

/-- C2: in the snapshot overlay each table node has at most two children
and a three-entry skiplist with a 128-bit ancestor bitmap (the `children`
/ `skip` / `is_ancestor` fields of `snapshot_t`); in a well-formed table a
node's ID is strictly greater than its children's IDs.  The ancestor test
returns true when the two IDs are equal, consults the bitmap (bit
`D - A - 1` of the descendant's 128-bit map) when the ID distance is
within the bitmap, and otherwise recurses via `get_ancestor_below`, which
under the sorted-skiplist invariant picks the largest skiplist entry `≤`
the sought ancestor (parent fallback).  Under well-formedness the whole
test agrees with the plain parent walk. -/
theorem claim_C2_snapshot_ancestor (t : List snapshot_t) :
    (∀ id, id < t.length → 0 < id → snapshot_table_wf t →
      ∀ j : Fin 2, (__snapshot_t t id).children j ≠ 0 →
        (__snapshot_t t id).children j < id) ∧
    (∀ fuel anc, bch2_snapshot_is_ancestor t fuel anc anc = true) ∧
    (∀ fuel id anc, id ≠ anc → ¬(id = 0 ∨ anc < id) →
      anc - id ≤ IS_ANCESTOR_BITMAP →
      bch2_snapshot_is_ancestor t fuel id anc =
        (__snapshot_t t id).is_ancestor (anc - id - 1)) ∧
    (∀ fuel id anc, id ≠ anc → ¬(id = 0 ∨ anc < id) →
      IS_ANCESTOR_BITMAP < anc - id →
      bch2_snapshot_is_ancestor t (fuel + 1) id anc =
        bch2_snapshot_is_ancestor t fuel (get_ancestor_below t id anc) anc) ∧
    (∀ id anc, (__snapshot_t t id).skip 0 ≤ (__snapshot_t t id).skip 1 →
      (__snapshot_t t id).skip 1 ≤ (__snapshot_t t id).skip 2 →
      ((∃ j : Fin 3, (__snapshot_t t id).skip j ≤ anc) →
        ∃ j : Fin 3, get_ancestor_below t id anc = (__snapshot_t t id).skip j ∧
          (__snapshot_t t id).skip j ≤ anc ∧
          ∀ j' : Fin 3, (__snapshot_t t id).skip j' ≤ anc →
            (__snapshot_t t id).skip j' ≤ (__snapshot_t t id).skip j) ∧
      ((∀ j : Fin 3, anc < (__snapshot_t t id).skip j) →
        get_ancestor_below t id anc = (__snapshot_t t id).parent)) ∧
    (∀ anc, 0 < anc → snapshot_table_wf t →
      ∀ fuel id, id < t.length → t.length - id ≤ fuel →
        bch2_snapshot_is_ancestor t fuel id anc =
          snapshot_walk_is_ancestor t id anc) := by
  refine ⟨?_, is_ancestor_self t, ?_, ?_, ?_, ?_⟩
  · intro id hlen hid hwf j hc
    obtain ⟨hclen, hcparent⟩ := (hwf id hlen hid).2.2.2.2.1 j hc
    have hc0 : 0 < (__snapshot_t t id).children j := Nat.pos_of_ne_zero hc
    rcases (hwf _ hclen hc0).1 with hp | hp
    · rw [hcparent] at hp
      omega
    · rw [hcparent] at hp
      exact hp.1
  · intro fuel id anc he hz hb
    rw [is_ancestor_bitmap_case t fuel id anc he hz hb]
    rfl
  · intro fuel id anc he hz hb
    exact is_ancestor_far_step t fuel id anc he hz (by omega)
  · intro id anc hs01 hs12
    exact get_ancestor_below_spec t id anc hs01 hs12
  · intro anc hanc hwf
    exact is_ancestor_eq_walk t hwf anc hanc

instance snapshot_table_wf_decidable (t : List snapshot_t) :
    Decidable (snapshot_table_wf t) := by
  unfold snapshot_table_wf
  infer_instance

/-- A concrete well-formed snapshot table: the chain 1 ← 2 ← 3 (IDs
increase toward the root, entry 0 unused). -/
def snapTestTable : List snapshot_t :=
  [snapshot_t.empty,
   { state := .live, parent := 2, skip := ![2, 2, 3], depth := 2,
     children := ![0, 0], subvol := 0, tree := 1,
     is_ancestor := fun d => decide (d < 2) },
   { state := .live, parent := 3, skip := ![3, 3, 3], depth := 1,
     children := ![1, 0], subvol := 0, tree := 1,
     is_ancestor := fun d => decide (d = 0) },
   { state := .live, parent := 0, skip := ![0, 0, 0], depth := 0,
     children := ![2, 0], subvol := 0, tree := 1,
     is_ancestor := fun _ => false }]

theorem claim_C2_snapshot_ancestor_witness :
    (__snapshot_t snapTestTable 3).children 0 < 3 ∧
    bch2_snapshot_is_ancestor snapTestTable 5 7 7 = true ∧
    bch2_snapshot_is_ancestor snapTestTable 4 1 3 =
      (__snapshot_t snapTestTable 1).is_ancestor (3 - 1 - 1) ∧
    bch2_snapshot_is_ancestor snapTestTable 4 1 3 =
      snapshot_walk_is_ancestor snapTestTable 1 3 := by
  have h := claim_C2_snapshot_ancestor snapTestTable
  refine ⟨?_, h.2.1 5 7, ?_, ?_⟩
  · exact h.1 3 (by decide) (by decide) (by decide) 0 (by decide)
  · exact h.2.2.1 4 1 3 (by decide) (by decide) (by decide)
  · exact h.2.2.2.2.2 3 (by decide) (by decide) 4 1 (by decide) (by decide)

end Bcachefs
